import Mathlib

/-!
# Verification of the JIT access-request watcher

Shallow embedding of `proof-of-concepts/jit-watcher/main.go` (package `main`).
Requests, locks and the watcher's per-tick processing are modelled as
executable Lean functions that mirror the Go source line by line:

* `adjudicateOne`   — the per-request body of `validateAndProcessPendingRequests`
* `pass1a`/`pass1b` — the two halves of `processEnvironmentConflicts`
* `resourceSplit`/`processResourceLimits` — `processResourceLimits`
* `lockAccessRequest`, `lockAll` — `lockAccessRequest` and the two guarded
  locking loops
* `tick`            — `processAllUsers` (one iteration of the polling loop)

Go `time.Time` values become `Nat` timestamps, a request's resource list keeps
only the data the watcher reads (the watcher only ever takes its length or
formats `kind:name`, and no claim inspects the latter, so resources are kept
as opaque strings), and a Go `map[string]bool` set becomes a `List String`
with membership semantics.

Two sources of run-to-run nondeterminism in the Go program are made explicit:

* Go map iteration order is randomized; every place the source ranges over the
  `matchingRoles` map to build a diagnostic string takes an `ord : List Nat`
  parameter giving the iteration order over the map's canonical entry list.
* `sort.Slice` is not stability-documented, but for the slice sizes arising
  here Go's pdqsort reduces to its insertion-sort base case, which keeps the
  input order on ties; `isortBy` is exactly that insertion sort.
-/

/-- State of an access request (`types.RequestState`); the watcher looks only
at PENDING, APPROVED and DENIED, every other state is carried along unread. -/
inductive ReqState where
  | pending
  | approved
  | denied
  | other
deriving DecidableEq

/-- `AccessRequestInfo` (main.go): the watcher's parsed view of an access
request. `created` is the creation timestamp in seconds; `resources` keeps one
opaque string per requested resource. -/
structure ReqInfo where
  id : String
  user : String
  roles : List String
  resources : List String
  created : Nat
  state : ReqState
deriving DecidableEq

/-- `Config` (main.go), restricted to the fields the processing logic reads. -/
structure Config where
  maxResources : Nat
  checkResources : Bool
  checkConflicts : Bool
  conflictPatterns : List String
deriving DecidableEq

/-- Does `needle` start the character list `hay`? Helper for the substring
matcher. -/
def startsWithCh : List Char → List Char → Bool
  | _, [] => true
  | [], _ :: _ => false
  | c :: cs, d :: ds => c == d && startsWithCh cs ds

/-- Does `needle` occur inside `hay` as a contiguous run? -/
def containsCh : List Char → List Char → Bool
  | [], needle => needle.isEmpty
  | hay@(_ :: rest), needle => startsWithCh hay needle || containsCh rest needle

/-- `regexp.Compile("(?i)" + pattern)` followed by `MatchString role`
(main.go `NewWatcher` / `hasEnvironmentConflict`): the configured patterns are
plain fragments such as `prod`, so the compiled regex is a case-insensitive
substring test. -/
def patMatch (pattern role : String) : Bool :=
  containsCh (role.toList.map Char.toLower) (pattern.toList.map Char.toLower)

/-- The roles of `roles` matched by one configured pattern, in role order
(the order Go appends them to the `matchingRoles` map entry). -/
def rolesMatching (pattern : String) (roles : List String) : List String :=
  roles.filter (fun r => patMatch pattern r)

/-- Canonical contents of the Go map `matchingRoles` built by
`hasEnvironmentConflict` (main.go:166-182): one entry per configured pattern
with at least one matching role, listed here in configured-pattern order.
Go iterates this map in a randomized order; see `applyOrd`. -/
def conflictEntries (pats roles : List String) : List (String × List String) :=
  (pats.map (fun p => (p, rolesMatching p roles))).filter (fun e => !e.2.isEmpty)

/-- `hasConflict := len(matchingRoles) > 1` (main.go:180). -/
def hasEnvConflict (pats roles : List String) : Bool :=
  decide ((conflictEntries pats roles).length > 1)

/-- `hasRolePattern` (main.go:341-348): some role matches the pattern. -/
def hasRolePattern (roles : List String) (pattern : String) : Bool :=
  roles.any (fun r => patMatch pattern r)

/-- Reorder a list by an index sequence; models one randomized Go map
iteration order over `conflictEntries`. An order `ord` that is a permutation
of `List.range l.length` corresponds to a possible run. -/
def applyOrd (l : List α) (ord : List Nat) : List α :=
  ord.filterMap (fun i => l[i]?)

/-- Go `%v` rendering of a `[]string`. -/
def fmtStrList (xs : List String) : String :=
  "[" ++ String.intercalate " " xs ++ "]"

/-- `fmt.Sprintf("%s: %v", pattern, roles)` for one map entry. -/
def fmtEntry (e : String × List String) : String :=
  e.1 ++ ": " ++ fmtStrList e.2

/-- The `strings.Join(conflictDetails, ", ")` rendering of the conflict map,
visited in iteration order `ord`. -/
def joinEntries (ord : List Nat) (entries : List (String × List String)) : String :=
  String.intercalate ", " ((applyOrd entries ord).map fmtEntry)

/-- A decision the pending adjudicator dispatches through
`SetAccessRequestState`. -/
inductive Decision where
  | approve (id reason : String)
  | deny (id reason : String)
deriving DecidableEq

/-- Is the decision an approval? -/
def Decision.isApprove : Decision → Bool
  | .approve _ _ => true
  | .deny _ _ => false

/-- The request id a decision is about. -/
def Decision.rid : Decision → String
  | .approve i _ => i
  | .deny i _ => i

/-- Fixed approval reason (main.go:299). -/
def approveMsg : String := "Auto-approved: complies with access policies"

/-- Resource-limit deny reason (main.go:282). -/
def resourceDenyReason (resourceCount maxResources : Nat) : String :=
  "Request contains " ++ toString resourceCount ++ " resources, exceeds limit of "
    ++ toString maxResources

/-- Role-conflict deny reason (main.go:293), map entries in order `ord`. -/
def conflictDenyReason (ord : List Nat) (entries : List (String × List String)) : String :=
  "Request contains conflicting environments - " ++ joinEntries ord entries

/-- Per-request body of `validateAndProcessPendingRequests` (main.go:269-299).
The Go code assigns `denyReason` for the resource check first and then, if the
conflict check also fires, assigns it again: the conflict reason overwrites
the resource reason. -/
def adjudicateOne (cfg : Config) (req : ReqInfo) (ord : List Nat) : Decision :=
  let resourceCount := req.resources.length
  let entries := conflictEntries cfg.conflictPatterns req.roles
  let resourceViolation := cfg.checkResources && decide (resourceCount > cfg.maxResources)
  let conflictViolation := cfg.checkConflicts && decide (entries.length > 1)
  let shouldApprove := !resourceViolation && !conflictViolation
  let denyReason :=
    if conflictViolation then conflictDenyReason ord entries
    else resourceDenyReason resourceCount cfg.maxResources
  if shouldApprove then Decision.approve req.id approveMsg
  else Decision.deny req.id denyReason

/-- Either enabled evaluator reports a violation on `req`
(the condition under which `shouldApprove` ends up false). -/
def violatesPolicy (cfg : Config) (req : ReqInfo) : Bool :=
  (cfg.checkResources && decide (req.resources.length > cfg.maxResources))
    || (cfg.checkConflicts && hasEnvConflict cfg.conflictPatterns req.roles)

/-- A dispatched `UpsertLock` call (main.go:222-235): the lock resource the
watcher builds and sends. -/
structure Lock where
  name : String
  target : String
  message : String
  expires : Nat
deriving DecidableEq

/-- One hour, in the `Nat`-seconds clock used for `created` and `expires`. -/
def hourSec : Nat := 3600

/-- Add a request id to the in-process `lockedRequests` set
(`w.lockedRequests[requestID] = true`). -/
def insertId (locked : List String) (rid : String) : List String :=
  if locked.contains rid then locked else locked ++ [rid]

/-- `lockAccessRequest` (main.go:218-242): build the lock, dispatch the
upsert, and record the id in the in-process set only when the upsert
succeeded (on failure Go returns before the map assignment). `ok` is the
platform's answer to this `UpsertLock` call; the first component is the list
of dispatched upsert calls. -/
def lockAccessRequest (now : Nat) (requestID reason : String) (locked : List String)
    (ok : Bool) : List Lock × List String :=
  let lock : Lock := ⟨"jit-watcher-" ++ requestID, requestID, reason, now + hourSec⟩
  if ok then ([lock], insertId locked requestID) else ([lock], locked)

/-- The guarded locking loop shared by the inter-request-conflict pass
(main.go:438-453) and the resource-limit pass (main.go:521-540): for each
queued request, skip it when `isRequestLocked` says the session already locked
it, otherwise dispatch `lockAccessRequest`. `lok` gives each upsert's
success. -/
def lockAll (now : Nat) (lok : String → Bool) (reason : String) :
    List ReqInfo → List String → List Lock × List String
  | [], locked => ([], locked)
  | req :: rest, locked =>
    if locked.contains req.id then lockAll now lok reason rest locked
    else
      let (ls, locked1) := lockAccessRequest now req.id reason locked (lok req.id)
      let (more, locked2) := lockAll now lok reason rest locked1
      (ls ++ more, locked2)

/-- Intra-request lock reason (main.go:374), map entries in order `ord`. -/
def intraConflictReason (ord : List Nat) (entries : List (String × List String)) : String :=
  "Single request contains conflicting roles: " ++ joinEntries ord entries

/-- Inter-request lock reason (main.go:442-443). -/
def interConflictReason (cfg : Config) : String :=
  "Multi-request environment conflict: user has conflicting access across requests ("
    ++ String.intercalate " vs " cfg.conflictPatterns ++ ")"

/-- Resource-limit lock reason (main.go:525). -/
def resourceLimitReason (cfg : Config) : String :=
  "Exceeded maximum approved resources limit (" ++ toString cfg.maxResources ++ ")"

/-- First half of `processEnvironmentConflicts` (main.go:363-385): lock every
request whose own roles conflict, keep the rest as `requestsToProcess`. Note
that, unlike `lockAll`, this loop dispatches `lockAccessRequest` without
consulting `isRequestLocked` first. -/
def pass1a (cfg : Config) (now : Nat) (ord : List Nat) (lok : String → Bool) :
    List ReqInfo → List String → List ReqInfo × List Lock × List String
  | [], locked => ([], [], locked)
  | req :: rest, locked =>
    if hasEnvConflict cfg.conflictPatterns req.roles then
      let reason := intraConflictReason ord (conflictEntries cfg.conflictPatterns req.roles)
      let (ls, locked1) := lockAccessRequest now req.id reason locked (lok req.id)
      let (tp, more, locked2) := pass1a cfg now ord lok rest locked1
      (tp, ls ++ more, locked2)
    else
      let (tp, more, locked2) := pass1a cfg now ord lok rest locked
      (req :: tp, more, locked2)

/-- The "participants" of a potential multi-request conflict (main.go:413-426):
the surviving requests at least one of whose roles matches some configured
pattern. -/
def participantsOf (cfg : Config) (toProcess : List ReqInfo) : List ReqInfo :=
  toProcess.filter (fun req => cfg.conflictPatterns.any (fun p => hasRolePattern req.roles p))

/-- Insert `x` into `l`, walking right past every element `y` with
`lt x y = false`; the insertion step of Go's insertion sort, keeping input
order on ties. -/
def insR (lt : α → α → Bool) (x : α) : List α → List α
  | [] => [x]
  | y :: ys => if lt x y then x :: y :: ys else y :: insR lt x ys

/-- Insertion sort; for the slice lengths arising here this is exactly what
Go's `sort.Slice` executes (pdqsort's insertion-sort base case). -/
def isortBy (lt : α → α → Bool) (l : List α) : List α :=
  l.foldl (fun acc x => insR lt x acc) []

/-- Comparator of main.go:430-432 — ascending by creation time, oldest
first; ids are not consulted. -/
def byCreatedAsc (a b : ReqInfo) : Bool := decide (a.created < b.created)

/-- Comparator of main.go:152-154 — `Created.After`, newest first; ids are
not consulted. -/
def byCreatedDesc (a b : ReqInfo) : Bool := decide (b.created < a.created)

/-- Second half of `processEnvironmentConflicts` (main.go:387-466): if the
surviving requests jointly conflict, sort the participants oldest-first and
lock all but the newest (guarded by the session set), then return the
requests the session has not locked. The two early returns hand
`requestsToProcess` back unfiltered, exactly as the Go code does. -/
def pass1b (cfg : Config) (now : Nat) (lok : String → Bool)
    (toProcess : List ReqInfo) (locked : List String) :
    List ReqInfo × List Lock × List String :=
  if toProcess.length ≤ 1 then (toProcess, [], locked)
  else
    let allRoles := (toProcess.map (fun r => r.roles)).flatten
    if !hasEnvConflict cfg.conflictPatterns allRoles then (toProcess, [], locked)
    else
      let conflictRequests := participantsOf cfg toProcess
      let ll :=
        if conflictRequests.length > 1 then
          lockAll now lok (interConflictReason cfg)
            (isortBy byCreatedAsc conflictRequests).dropLast locked
        else ([], locked)
      let unlocked := toProcess.filter (fun r => !ll.2.contains r.id)
      (unlocked, ll.1, ll.2)

/-- `processEnvironmentConflicts` (main.go:350-467). -/
def processEnvConflicts (cfg : Config) (now : Nat) (ord : List Nat) (lok : String → Bool)
    (userRequests : List ReqInfo) (locked : List String) :
    List ReqInfo × List Lock × List String :=
  if !cfg.checkConflicts then (userRequests, [], locked)
  else if userRequests.isEmpty then (userRequests, [], locked)
  else
    let pa := pass1a cfg now ord lok userRequests locked
    let pb := pass1b cfg now lok pa.1 pa.2.2
    (pb.1, pa.2.1 ++ pb.2.1, pb.2.2)

/-- Total resource count of a request list (main.go:483-486). -/
def sumCounts (l : List ReqInfo) : Nat :=
  (l.map (fun r => r.resources.length)).sum

/-- The greedy loop of `processResourceLimits` (main.go:500-515): walk the
requests in order, keep one when its count fits the remaining quota
(`resourcesToKeep >= resourceCount`), otherwise queue it for locking. -/
def greedySplit : Nat → List ReqInfo → List ReqInfo × List ReqInfo
  | _, [] => ([], [])
  | quota, req :: rest =>
    let c := req.resources.length
    if c ≤ quota then
      let (keep, lock) := greedySplit (quota - c) rest
      (req :: keep, lock)
    else
      let (keep, lock) := greedySplit quota rest
      (keep, req :: lock)

/-- Kept/queued split of the resource pass: everything is kept when the total
is within the limit (the early return of main.go:491-495), otherwise the
greedy split runs with quota `maxResources`. -/
def resourceSplit (maxResources : Nat) (userRequests : List ReqInfo) :
    List ReqInfo × List ReqInfo :=
  if sumCounts userRequests ≤ maxResources then (userRequests, [])
  else greedySplit maxResources userRequests

/-- `processResourceLimits` (main.go:470-542). -/
def processResourceLimits (cfg : Config) (now : Nat) (lok : String → Bool)
    (userRequests : List ReqInfo) (locked : List String) : List Lock × List String :=
  if !cfg.checkResources then ([], locked)
  else if userRequests.isEmpty then ([], locked)
  else
    lockAll now lok (resourceLimitReason cfg)
      (resourceSplit cfg.maxResources userRequests).2 locked

/-- A dispatched `SetAccessRequestState` call. -/
structure SetCall where
  rid : String
  approve : Bool
  reason : String
deriving DecidableEq

/-- Everything one tick (`processAllUsers`) sends to or leaves on the
platform: the dispatched state changes and lock upserts, the request store
after the tick, and the in-process `lockedRequests` set after the tick. -/
structure TickOut where
  setStates : List SetCall
  locks : List Lock
  finalReqs : List ReqInfo
  locked : List String
deriving DecidableEq

/-- The APPROVED requests of a snapshot, in snapshot order. -/
def approvedOf (l : List ReqInfo) : List ReqInfo :=
  l.filter (fun r => r.state == ReqState.approved)

/-- First-appearance deduplication; the canonical stand-in for iterating the
Go `approved` map's user keys (user groups are mutually independent, so the
randomized order across users is observationally irrelevant — every claim
below is about per-user outputs or order-insensitive data). -/
def dedupFA (l : List String) : List String :=
  l.foldl (fun acc u => if acc.contains u then acc else acc ++ [u]) []

/-- `getApprovedRequestsByUser` (main.go:141-158) followed by the per-user
iteration of main.go:573-581: each user's approved requests, in snapshot
order, sorted newest-first. -/
def groupsFor (processed : List ReqInfo) : List (List ReqInfo) :=
  (dedupFA ((approvedOf processed).map (fun r => r.user))).map
    (fun u => isortBy byCreatedDesc ((approvedOf processed).filter (fun r => r.user == u)))

/-- Reconcile one user's approved group (main.go:573-581): environment
conflicts first, then resource limits on what remained unlocked. -/
def processOneUser (cfg : Config) (now : Nat) (ord : List Nat) (lok : String → Bool)
    (group : List ReqInfo) (locked : List String) : List Lock × List String :=
  let pe := processEnvConflicts cfg now ord lok group locked
  let pr := processResourceLimits cfg now lok pe.1 pe.2.2
  (pe.2.1 ++ pr.1, pr.2)

/-- Reconcile every user group in turn, threading the session lock set. -/
def processUsers (cfg : Config) (now : Nat) (ord : List Nat) (lok : String → Bool) :
    List (List ReqInfo) → List String → List Lock × List String
  | [], locked => ([], locked)
  | g :: gs, locked =>
    let p1 := processOneUser cfg now ord lok g locked
    let p2 := processUsers cfg now ord lok gs p1.2
    (p1.1 ++ p2.1, p2.2)

/-- The PENDING requests of a snapshot, in snapshot order. -/
def pendingOf (reqs : List ReqInfo) : List ReqInfo :=
  reqs.filter (fun r => r.state == ReqState.pending)

/-- The `processedRequests` list `validateAndProcessPendingRequests` returns
(main.go:245-323): the non-pending requests in snapshot order, then the
pending requests whose approval was dispatched and accepted, re-labelled
APPROVED. Denied requests and failed dispatches drop out. -/
def processedOf (cfg : Config) (ord : List Nat) (sok : String → Bool)
    (reqs : List ReqInfo) : List ReqInfo :=
  reqs.filter (fun r => !(r.state == ReqState.pending))
    ++ (pendingOf reqs).filterMap (fun r =>
      match adjudicateOne cfg r ord with
      | .approve _ _ => if sok r.id then some { r with state := ReqState.approved } else none
      | .deny _ _ => none)

/-- One tick: `processAllUsers` (main.go:545-584). `sok r` / `lok r` give the
platform's answer to the `SetState` / `UpsertLock` call for request id `r`
this tick. Pending requests are adjudicated (every decision is dispatched;
only successful approvals flow on as APPROVED — main.go:298-319), then the
approved groups are reconciled per user. `finalReqs` is the platform's
request store afterwards: successful decisions change the stored state,
locks do not. -/
def tick (cfg : Config) (now : Nat) (ord : List Nat) (sok lok : String → Bool)
    (reqs : List ReqInfo) (locked : List String) : TickOut :=
  let setStates := (pendingOf reqs).map (fun r =>
    match adjudicateOne cfg r ord with
    | .approve i s => SetCall.mk i true s
    | .deny i s => SetCall.mk i false s)
  let finalReqs := reqs.map (fun r =>
    if r.state == ReqState.pending then
      if sok r.id then
        match adjudicateOne cfg r ord with
        | .approve _ _ => { r with state := ReqState.approved }
        | .deny _ _ => { r with state := ReqState.denied }
      else r
    else r)
  let pu := processUsers cfg now ord lok (groupsFor (processedOf cfg ord sok reqs)) locked
  ⟨setStates, pu.1, finalReqs, pu.2⟩

/-- `strings.Split(value, ",")` on characters: cut at every separator. -/
def splitChAux (sep : Char) : List Char → List Char → List (List Char)
  | [], acc => [acc.reverse]
  | c :: cs, acc =>
    if c == sep then acc.reverse :: splitChAux sep cs []
    else splitChAux sep cs (c :: acc)

/-- `strings.Split(value, ",")`. -/
def splitOnComma (s : String) : List String :=
  (splitChAux ',' s.toList []).map String.mk

/-- `strings.TrimSpace`: drop whitespace from both ends. -/
def trimSpace (s : String) : String :=
  String.mk (((s.toList.dropWhile Char.isWhitespace).reverse.dropWhile
    Char.isWhitespace).reverse)

/-- `StringSliceFlag.Set` (main.go:642-652): split the flag value on commas,
trim each part, append the non-empty ones. -/
def stringSliceFlagSet (cur : List String) (value : String) : List String :=
  cur ++ ((splitOnComma value).map trimSpace).filter (fun s => !(s == ""))

/-- Default conflict patterns applied when none were parsed (main.go:691-695). -/
def resolveConflictPatterns (parsed : List String) : List String :=
  if parsed.isEmpty then ["prod", "research"] else parsed

/-- Startup validation of main.go:725-728: role-conflict checking needs at
least two patterns. Returns `true` when startup does not abort. -/
def validateConflictPatterns (checkConflicts : Bool) (pats : List String) : Bool :=
  !(checkConflicts && decide (pats.length < 2))

/-- A lock the watcher dispatches is well-formed when its name is the
`jit-watcher-` prefixed target id and it expires one hour after creation. -/
def lockWellFormed (now : Nat) (lk : Lock) : Prop :=
  lk.name = "jit-watcher-" ++ lk.target ∧ lk.expires = now + hourSec

/-- Substring containment on strings (used to state facts about the deny
reason's contents). -/
def strContains (hay needle : String) : Bool :=
  containsCh hay.toList needle.toList

/-- A lock upsert without its message: the message embeds the randomized map
iteration order, everything else is iteration-order independent. -/
def stripLock (lk : Lock) : String × String × Nat :=
  (lk.name, lk.target, lk.expires)

/-- A `SetState` call without its reason string. -/
def stripCall (c : SetCall) : String × Bool :=
  (c.rid, c.approve)

/-- The flag defaults of main.go:659-694: maxResources 3, both checks on,
patterns `prod` and `research`. -/
def cfgDefault : Config := ⟨3, true, true, ["prod", "research"]⟩

/-- An APPROVED request whose own roles match both default patterns (an
intra-request conflict). -/
def reqIntra : ReqInfo := ⟨"r1", "u1", ["prod-a", "research-b"], [], 100, ReqState.approved⟩

/-- A PENDING request violating neither default policy. -/
def reqClean : ReqInfo := ⟨"rc", "u2", ["db-readonly"], ["x", "y"], 100, ReqState.pending⟩

/-- A PENDING request violating both default policies: four resources and
roles matching both patterns. -/
def reqBoth : ReqInfo :=
  ⟨"rb", "u3", ["prod-admin", "research-lab"], ["x1", "x2", "x3", "x4"], 100, ReqState.pending⟩

/-- A PENDING request with an intra-request role conflict only. -/
def pendConf : ReqInfo := ⟨"rp", "u4", ["prod-a", "research-b"], [], 100, ReqState.pending⟩

/-- First tick on a snapshot holding only `reqIntra`. -/
def tickOne : TickOut :=
  tick cfgDefault 1000 [0, 1] (fun _ => true) (fun _ => true) [reqIntra] []

/-- Second tick, fed the platform state and session set the first left. -/
def tickTwo : TickOut :=
  tick cfgDefault 1000 [0, 1] (fun _ => true) (fun _ => true) tickOne.finalReqs tickOne.locked

/-- Two APPROVED requests for one user, conflicting across requests, with
equal creation times; `tieB` has the larger id. -/
def tieA : ReqInfo := ⟨"a", "u5", ["prod-admin"], [], 100, ReqState.approved⟩

/-- See `tieA`. -/
def tieB : ReqInfo := ⟨"b", "u5", ["research-lab"], [], 100, ReqState.approved⟩

/-- Two-resource requests for the resource-limit pass, newest first. -/
def evA : ReqInfo := ⟨"r8", "eve", ["safe"], ["p", "q"], 300, ReqState.approved⟩

/-- See `evA`. -/
def evB : ReqInfo := ⟨"r7", "eve", ["research-b"], ["p", "q"], 200, ReqState.approved⟩

/-- Scenario-4 requests of the specification: two approved requests for one
user with distinct creation times, conflicting across requests. -/
def dOld : ReqInfo := ⟨"r4", "dave", ["prod-admin"], ["x"], 100, ReqState.approved⟩

/-- See `dOld`; the newer of the two. -/
def dNew : ReqInfo := ⟨"r5", "dave", ["research-lab"], ["y"], 200, ReqState.approved⟩

/-! ## Basic facts about the session lock set and the locking loops -/

theorem insertId_mem (locked : List String) (i x : String) :
    x ∈ insertId locked i ↔ x ∈ locked ∨ x = i := by
  unfold insertId
  split
  · rename_i h
    constructor
    · exact fun hx => Or.inl hx
    · rintro (hx | rfl)
      · exact hx
      · simpa using h
  · simp

/-- The upsert dispatched by `lockAccessRequest` and its effect on the
in-process set: the set gains the id exactly when the upsert succeeded. -/
theorem lockAccessRequest_spec (now : Nat) (i r : String) (locked : List String) (ok : Bool) :
    lockAccessRequest now i r locked ok
      = (if ok then ([⟨"jit-watcher-" ++ i, i, r, now + hourSec⟩], insertId locked i)
         else ([⟨"jit-watcher-" ++ i, i, r, now + hourSec⟩], locked)) := by
  unfold lockAccessRequest
  split <;> rfl

theorem lockAll_locked_mono (now : Nat) (lok : String → Bool) (reason : String)
    (l : List ReqInfo) (locked : List String) (x : String) (hx : x ∈ locked) :
    x ∈ (lockAll now lok reason l locked).2 := by
  induction l generalizing locked with
  | nil => simpa [lockAll] using hx
  | cons req rest ih =>
    unfold lockAll
    split
    · exact ih locked hx
    · simp only [lockAccessRequest_spec]
      split
      · exact ih _ ((insertId_mem ..).mpr (Or.inl hx))
      · exact ih _ hx

theorem lockAll_locked_of_mem (now : Nat) (lok : String → Bool) (reason : String)
    (l : List ReqInfo) (locked : List String) (r : ReqInfo) (hr : r ∈ l)
    (hok : lok r.id = true) :
    r.id ∈ (lockAll now lok reason l locked).2 := by
  induction l generalizing locked with
  | nil => cases hr
  | cons req rest ih =>
    unfold lockAll
    rcases List.mem_cons.mp hr with rfl | hr'
    · split
      · rename_i h
        exact lockAll_locked_mono now lok reason rest locked r.id (by simpa using h)
      · simp only [lockAccessRequest_spec, hok, if_pos]
        exact lockAll_locked_mono now lok reason rest _ r.id
          ((insertId_mem ..).mpr (Or.inr rfl))
    · split
      · exact ih locked hr'
      · simp only [lockAccessRequest_spec]
        split
        · exact ih _ hr'
        · exact ih _ hr'

/-- Unfolding equation: the head request is skipped when the session already
locked it. -/
theorem lockAll_cons_skip (now : Nat) (lok : String → Bool) (reason : String)
    (req : ReqInfo) (rest : List ReqInfo) (locked : List String)
    (h : locked.contains req.id = true) :
    lockAll now lok reason (req :: rest) locked = lockAll now lok reason rest locked := by
  have h' : req.id ∈ locked := by simpa using h
  simp only [lockAll]
  simp [h']

/-- Unfolding equation: an unguarded head request is dispatched, and the set
gains its id exactly when the platform accepted the upsert. -/
theorem lockAll_cons_lock (now : Nat) (lok : String → Bool) (reason : String)
    (req : ReqInfo) (rest : List ReqInfo) (locked : List String)
    (h : locked.contains req.id = false) :
    lockAll now lok reason (req :: rest) locked =
      ((⟨"jit-watcher-" ++ req.id, req.id, reason, now + hourSec⟩ : Lock)
          :: (lockAll now lok reason rest
              (if lok req.id then insertId locked req.id else locked)).1,
        (lockAll now lok reason rest
            (if lok req.id then insertId locked req.id else locked)).2) := by
  have h' : req.id ∉ locked := by simpa using h
  simp only [lockAll, lockAccessRequest_spec]
  by_cases hok : lok req.id = true <;> simp [h', hok]

theorem lockAll_locks_spec (now : Nat) (lok : String → Bool) (reason : String)
    (l : List ReqInfo) (locked : List String) (lk : Lock)
    (hlk : lk ∈ (lockAll now lok reason l locked).1) :
    ∃ r ∈ l, lk = ⟨"jit-watcher-" ++ r.id, r.id, reason, now + hourSec⟩ := by
  induction l generalizing locked with
  | nil => simp [lockAll] at hlk
  | cons req rest ih =>
    by_cases h : locked.contains req.id = true
    · rw [lockAll_cons_skip now lok reason req rest locked h] at hlk
      obtain ⟨r, hr, he⟩ := ih locked hlk
      exact ⟨r, List.mem_cons_of_mem _ hr, he⟩
    · rw [lockAll_cons_lock now lok reason req rest locked (by simpa using h)] at hlk
      rcases List.mem_cons.mp hlk with rfl | h2
      · exact ⟨req, List.mem_cons_self .., rfl⟩
      · obtain ⟨r, hr, he⟩ := ih _ h2
        exact ⟨r, List.mem_cons_of_mem _ hr, he⟩

theorem lockAll_locked_new (now : Nat) (lok : String → Bool) (reason : String)
    (l : List ReqInfo) (locked : List String) (x : String)
    (hx : x ∈ (lockAll now lok reason l locked).2) :
    x ∈ locked ∨ ∃ lk ∈ (lockAll now lok reason l locked).1, lk.target = x ∧ lok x = true := by
  induction l generalizing locked with
  | nil => exact Or.inl (by simpa [lockAll] using hx)
  | cons req rest ih =>
    by_cases h : locked.contains req.id = true
    · rw [lockAll_cons_skip now lok reason req rest locked h] at hx ⊢
      exact ih locked hx
    · rw [lockAll_cons_lock now lok reason req rest locked (by simpa using h)] at hx ⊢
      by_cases hok : lok req.id = true
      · simp only [hok, if_pos] at hx ⊢
        rcases ih _ hx with hold | ⟨lk, hlk, ht, hl⟩
        · rcases (insertId_mem ..).mp hold with h1 | rfl
          · exact Or.inl h1
          · exact Or.inr ⟨⟨"jit-watcher-" ++ req.id, req.id, reason, now + hourSec⟩,
              List.mem_cons_self .., rfl, hok⟩
        · exact Or.inr ⟨lk, List.mem_cons_of_mem _ hlk, ht, hl⟩
      · simp only [Bool.not_eq_true] at hok
        simp only [hok, Bool.false_eq_true, if_false] at hx ⊢
        rcases ih _ hx with hold | ⟨lk, hlk, ht, hl⟩
        · exact Or.inl hold
        · exact Or.inr ⟨lk, List.mem_cons_of_mem _ hlk, ht, hl⟩

/-- Unfolding equation: an intra-conflicted head request is locked without
consulting the session set (main.go:366-381 has no `isRequestLocked` guard). -/
theorem pass1a_cons_conflict (cfg : Config) (now : Nat) (ord : List Nat) (lok : String → Bool)
    (req : ReqInfo) (rest : List ReqInfo) (locked : List String)
    (h : hasEnvConflict cfg.conflictPatterns req.roles = true) :
    pass1a cfg now ord lok (req :: rest) locked =
      ((pass1a cfg now ord lok rest
          (if lok req.id then insertId locked req.id else locked)).1,
        (⟨"jit-watcher-" ++ req.id, req.id,
            intraConflictReason ord (conflictEntries cfg.conflictPatterns req.roles),
            now + hourSec⟩ : Lock)
          :: (pass1a cfg now ord lok rest
              (if lok req.id then insertId locked req.id else locked)).2.1,
        (pass1a cfg now ord lok rest
            (if lok req.id then insertId locked req.id else locked)).2.2) := by
  simp only [pass1a, lockAccessRequest_spec]
  by_cases hok : lok req.id = true <;> simp [h, hok]

/-- Unfolding equation: a head request without an intra-request conflict is
kept for the inter-request pass. -/
theorem pass1a_cons_clean (cfg : Config) (now : Nat) (ord : List Nat) (lok : String → Bool)
    (req : ReqInfo) (rest : List ReqInfo) (locked : List String)
    (h : hasEnvConflict cfg.conflictPatterns req.roles = false) :
    pass1a cfg now ord lok (req :: rest) locked =
      (req :: (pass1a cfg now ord lok rest locked).1,
        (pass1a cfg now ord lok rest locked).2.1,
        (pass1a cfg now ord lok rest locked).2.2) := by
  simp only [pass1a]
  simp [h]

theorem pass1a_locks_spec (cfg : Config) (now : Nat) (ord : List Nat) (lok : String → Bool)
    (l : List ReqInfo) (locked : List String) (lk : Lock)
    (hlk : lk ∈ (pass1a cfg now ord lok l locked).2.1) :
    ∃ r ∈ l, hasEnvConflict cfg.conflictPatterns r.roles = true ∧
      lk = ⟨"jit-watcher-" ++ r.id, r.id,
        intraConflictReason ord (conflictEntries cfg.conflictPatterns r.roles),
        now + hourSec⟩ := by
  induction l generalizing locked with
  | nil => simp [pass1a] at hlk
  | cons req rest ih =>
    by_cases h : hasEnvConflict cfg.conflictPatterns req.roles = true
    · rw [pass1a_cons_conflict cfg now ord lok req rest locked h] at hlk
      rcases List.mem_cons.mp hlk with rfl | h2
      · exact ⟨req, List.mem_cons_self .., h, rfl⟩
      · obtain ⟨r, hr, hc, he⟩ := ih _ h2
        exact ⟨r, List.mem_cons_of_mem _ hr, hc, he⟩
    · rw [pass1a_cons_clean cfg now ord lok req rest locked (by simpa using h)] at hlk
      obtain ⟨r, hr, hc, he⟩ := ih _ hlk
      exact ⟨r, List.mem_cons_of_mem _ hr, hc, he⟩

theorem pass1a_locked_mono (cfg : Config) (now : Nat) (ord : List Nat) (lok : String → Bool)
    (l : List ReqInfo) (locked : List String) (x : String) (hx : x ∈ locked) :
    x ∈ (pass1a cfg now ord lok l locked).2.2 := by
  induction l generalizing locked with
  | nil => simpa [pass1a] using hx
  | cons req rest ih =>
    by_cases h : hasEnvConflict cfg.conflictPatterns req.roles = true
    · rw [pass1a_cons_conflict cfg now ord lok req rest locked h]
      by_cases hok : lok req.id = true
      · simpa [hok] using ih _ ((insertId_mem ..).mpr (Or.inl hx))
      · simp only [Bool.not_eq_true] at hok
        simpa [hok] using ih _ hx
    · rw [pass1a_cons_clean cfg now ord lok req rest locked (by simpa using h)]
      exact ih _ hx

theorem pass1a_locked_new (cfg : Config) (now : Nat) (ord : List Nat) (lok : String → Bool)
    (l : List ReqInfo) (locked : List String) (x : String)
    (hx : x ∈ (pass1a cfg now ord lok l locked).2.2) :
    x ∈ locked ∨
      ∃ lk ∈ (pass1a cfg now ord lok l locked).2.1, lk.target = x ∧ lok x = true := by
  induction l generalizing locked with
  | nil => exact Or.inl (by simpa [pass1a] using hx)
  | cons req rest ih =>
    by_cases h : hasEnvConflict cfg.conflictPatterns req.roles = true
    · rw [pass1a_cons_conflict cfg now ord lok req rest locked h] at hx ⊢
      by_cases hok : lok req.id = true
      · simp only [hok, if_pos] at hx ⊢
        rcases ih _ hx with hold | ⟨lk, hlk, ht, hl⟩
        · rcases (insertId_mem ..).mp hold with h1 | rfl
          · exact Or.inl h1
          · exact Or.inr ⟨_, List.mem_cons_self .., rfl, hok⟩
        · exact Or.inr ⟨lk, List.mem_cons_of_mem _ hlk, ht, hl⟩
      · simp only [Bool.not_eq_true] at hok
        simp only [hok, Bool.false_eq_true, if_false] at hx ⊢
        rcases ih _ hx with hold | ⟨lk, hlk, ht, hl⟩
        · exact Or.inl hold
        · exact Or.inr ⟨lk, List.mem_cons_of_mem _ hlk, ht, hl⟩
    · rw [pass1a_cons_clean cfg now ord lok req rest locked (by simpa using h)] at hx ⊢
      exact ih _ hx

theorem pass1b_locks_wf (cfg : Config) (now : Nat) (lok : String → Bool)
    (toProcess : List ReqInfo) (locked : List String) (lk : Lock)
    (hlk : lk ∈ (pass1b cfg now lok toProcess locked).2.1) :
    lockWellFormed now lk := by
  by_cases h1 : toProcess.length ≤ 1
  · simp [pass1b, h1] at hlk
  · by_cases h2 : hasEnvConflict cfg.conflictPatterns
        ((toProcess.map (fun r => r.roles)).flatten) = true
    · by_cases h3 : (participantsOf cfg toProcess).length > 1
      · simp only [pass1b, h1, h2, h3, if_true, if_false, Bool.not_true,
          Bool.false_eq_true, ite_false, ite_true] at hlk
        obtain ⟨r, _, he⟩ := lockAll_locks_spec _ _ _ _ _ _ hlk
        subst he
        exact ⟨rfl, rfl⟩
      · simp [pass1b, h1, h2, h3] at hlk
    · simp only [Bool.not_eq_true] at h2
      simp [pass1b, h1, h2] at hlk

theorem pass1b_locked_mono (cfg : Config) (now : Nat) (lok : String → Bool)
    (toProcess : List ReqInfo) (locked : List String) (x : String) (hx : x ∈ locked) :
    x ∈ (pass1b cfg now lok toProcess locked).2.2 := by
  by_cases h1 : toProcess.length ≤ 1
  · simpa [pass1b, h1] using hx
  · by_cases h2 : hasEnvConflict cfg.conflictPatterns
        ((toProcess.map (fun r => r.roles)).flatten) = true
    · by_cases h3 : (participantsOf cfg toProcess).length > 1
      · simp only [pass1b, h1, h2, h3, if_true, if_false, Bool.not_true,
          Bool.false_eq_true, ite_false, ite_true]
        exact lockAll_locked_mono _ _ _ _ _ _ hx
      · simpa [pass1b, h1, h2, h3] using hx
    · simp only [Bool.not_eq_true] at h2
      simpa [pass1b, h1, h2] using hx

theorem pass1b_locked_new (cfg : Config) (now : Nat) (lok : String → Bool)
    (toProcess : List ReqInfo) (locked : List String) (x : String)
    (hx : x ∈ (pass1b cfg now lok toProcess locked).2.2) :
    x ∈ locked ∨
      ∃ lk ∈ (pass1b cfg now lok toProcess locked).2.1, lk.target = x ∧ lok x = true := by
  by_cases h1 : toProcess.length ≤ 1
  · simp [pass1b, h1] at hx ⊢
    exact hx
  · by_cases h2 : hasEnvConflict cfg.conflictPatterns
        ((toProcess.map (fun r => r.roles)).flatten) = true
    · by_cases h3 : (participantsOf cfg toProcess).length > 1
      · simp only [pass1b, h1, h2, h3, if_true, if_false, Bool.not_true,
          Bool.false_eq_true, ite_false, ite_true] at hx ⊢
        exact lockAll_locked_new _ _ _ _ _ _ hx
      · simp [pass1b, h1, h2, h3] at hx ⊢
        exact hx
    · simp only [Bool.not_eq_true] at h2
      simp [pass1b, h1, h2] at hx ⊢
      exact hx

theorem env_locks_wf (cfg : Config) (now : Nat) (ord : List Nat) (lok : String → Bool)
    (l : List ReqInfo) (locked : List String) (lk : Lock)
    (hlk : lk ∈ (processEnvConflicts cfg now ord lok l locked).2.1) :
    lockWellFormed now lk := by
  by_cases hc : cfg.checkConflicts = true
  · by_cases he : l.isEmpty = true
    · simp [processEnvConflicts, hc, he] at hlk
    · simp only [Bool.not_eq_true] at he
      simp only [processEnvConflicts, hc, he, Bool.not_true, Bool.false_eq_true,
        ite_false] at hlk
      rcases List.mem_append.mp hlk with h1 | h2
      · obtain ⟨r, _, _, heq⟩ := pass1a_locks_spec _ _ _ _ _ _ _ h1
        subst heq
        exact ⟨rfl, rfl⟩
      · exact pass1b_locks_wf _ _ _ _ _ _ h2
  · simp only [Bool.not_eq_true] at hc
    simp [processEnvConflicts, hc] at hlk

theorem env_locked_mono (cfg : Config) (now : Nat) (ord : List Nat) (lok : String → Bool)
    (l : List ReqInfo) (locked : List String) (x : String) (hx : x ∈ locked) :
    x ∈ (processEnvConflicts cfg now ord lok l locked).2.2 := by
  by_cases hc : cfg.checkConflicts = true
  · by_cases he : l.isEmpty = true
    · simpa [processEnvConflicts, hc, he] using hx
    · simp only [Bool.not_eq_true] at he
      simp only [processEnvConflicts, hc, he, Bool.not_true, Bool.false_eq_true,
        ite_false]
      exact pass1b_locked_mono _ _ _ _ _ _ (pass1a_locked_mono _ _ _ _ _ _ _ hx)
  · simp only [Bool.not_eq_true] at hc
    simpa [processEnvConflicts, hc] using hx

theorem env_locked_new (cfg : Config) (now : Nat) (ord : List Nat) (lok : String → Bool)
    (l : List ReqInfo) (locked : List String) (x : String)
    (hx : x ∈ (processEnvConflicts cfg now ord lok l locked).2.2) :
    x ∈ locked ∨
      ∃ lk ∈ (processEnvConflicts cfg now ord lok l locked).2.1,
        lk.target = x ∧ lok x = true := by
  by_cases hc : cfg.checkConflicts = true
  · by_cases he : l.isEmpty = true
    · exact Or.inl (by simpa [processEnvConflicts, hc, he] using hx)
    · simp only [Bool.not_eq_true] at he
      simp only [processEnvConflicts, hc, he, Bool.not_true, Bool.false_eq_true,
        ite_false] at hx ⊢
      rcases pass1b_locked_new _ _ _ _ _ _ hx with h1 | ⟨lk, hlk, ht, hl⟩
      · rcases pass1a_locked_new _ _ _ _ _ _ _ h1 with h0 | ⟨lk, hlk, ht, hl⟩
        · exact Or.inl h0
        · exact Or.inr ⟨lk, List.mem_append.mpr (Or.inl hlk), ht, hl⟩
      · exact Or.inr ⟨lk, List.mem_append.mpr (Or.inr hlk), ht, hl⟩
  · simp only [Bool.not_eq_true] at hc
    exact Or.inl (by simpa [processEnvConflicts, hc] using hx)

theorem resource_locks_wf (cfg : Config) (now : Nat) (lok : String → Bool)
    (l : List ReqInfo) (locked : List String) (lk : Lock)
    (hlk : lk ∈ (processResourceLimits cfg now lok l locked).1) :
    lockWellFormed now lk := by
  by_cases hr : cfg.checkResources = true
  · by_cases he : l.isEmpty = true
    · simp [processResourceLimits, hr, he] at hlk
    · simp only [Bool.not_eq_true] at he
      simp only [processResourceLimits, hr, he, Bool.not_true, Bool.false_eq_true,
        ite_false] at hlk
      obtain ⟨r, _, heq⟩ := lockAll_locks_spec _ _ _ _ _ _ hlk
      subst heq
      exact ⟨rfl, rfl⟩
  · simp only [Bool.not_eq_true] at hr
    simp [processResourceLimits, hr] at hlk

theorem resource_locked_mono (cfg : Config) (now : Nat) (lok : String → Bool)
    (l : List ReqInfo) (locked : List String) (x : String) (hx : x ∈ locked) :
    x ∈ (processResourceLimits cfg now lok l locked).2 := by
  by_cases hr : cfg.checkResources = true
  · by_cases he : l.isEmpty = true
    · simpa [processResourceLimits, hr, he] using hx
    · simp only [Bool.not_eq_true] at he
      simp only [processResourceLimits, hr, he, Bool.not_true, Bool.false_eq_true,
        ite_false]
      exact lockAll_locked_mono _ _ _ _ _ _ hx
  · simp only [Bool.not_eq_true] at hr
    simpa [processResourceLimits, hr] using hx

theorem resource_locked_new (cfg : Config) (now : Nat) (lok : String → Bool)
    (l : List ReqInfo) (locked : List String) (x : String)
    (hx : x ∈ (processResourceLimits cfg now lok l locked).2) :
    x ∈ locked ∨
      ∃ lk ∈ (processResourceLimits cfg now lok l locked).1,
        lk.target = x ∧ lok x = true := by
  by_cases hr : cfg.checkResources = true
  · by_cases he : l.isEmpty = true
    · exact Or.inl (by simpa [processResourceLimits, hr, he] using hx)
    · simp only [Bool.not_eq_true] at he
      simp only [processResourceLimits, hr, he, Bool.not_true, Bool.false_eq_true,
        ite_false] at hx ⊢
      exact lockAll_locked_new _ _ _ _ _ _ hx
  · simp only [Bool.not_eq_true] at hr
    exact Or.inl (by simpa [processResourceLimits, hr] using hx)

theorem oneUser_locks_wf (cfg : Config) (now : Nat) (ord : List Nat) (lok : String → Bool)
    (g : List ReqInfo) (locked : List String) (lk : Lock)
    (hlk : lk ∈ (processOneUser cfg now ord lok g locked).1) :
    lockWellFormed now lk := by
  simp only [processOneUser] at hlk
  rcases List.mem_append.mp hlk with h | h
  · exact env_locks_wf _ _ _ _ _ _ _ h
  · exact resource_locks_wf _ _ _ _ _ _ h

theorem oneUser_locked_mono (cfg : Config) (now : Nat) (ord : List Nat) (lok : String → Bool)
    (g : List ReqInfo) (locked : List String) (x : String) (hx : x ∈ locked) :
    x ∈ (processOneUser cfg now ord lok g locked).2 := by
  simp only [processOneUser]
  exact resource_locked_mono _ _ _ _ _ _ (env_locked_mono _ _ _ _ _ _ _ hx)

theorem oneUser_locked_new (cfg : Config) (now : Nat) (ord : List Nat) (lok : String → Bool)
    (g : List ReqInfo) (locked : List String) (x : String)
    (hx : x ∈ (processOneUser cfg now ord lok g locked).2) :
    x ∈ locked ∨
      ∃ lk ∈ (processOneUser cfg now ord lok g locked).1, lk.target = x ∧ lok x = true := by
  simp only [processOneUser] at hx ⊢
  rcases resource_locked_new _ _ _ _ _ _ hx with h1 | ⟨lk, hlk, ht, hl⟩
  · rcases env_locked_new _ _ _ _ _ _ _ h1 with h0 | ⟨lk, hlk, ht, hl⟩
    · exact Or.inl h0
    · exact Or.inr ⟨lk, List.mem_append.mpr (Or.inl hlk), ht, hl⟩
  · exact Or.inr ⟨lk, List.mem_append.mpr (Or.inr hlk), ht, hl⟩

theorem users_locks_wf (cfg : Config) (now : Nat) (ord : List Nat) (lok : String → Bool)
    (gs : List (List ReqInfo)) (locked : List String) (lk : Lock)
    (hlk : lk ∈ (processUsers cfg now ord lok gs locked).1) :
    lockWellFormed now lk := by
  induction gs generalizing locked with
  | nil => simp [processUsers] at hlk
  | cons g rest ih =>
    simp only [processUsers] at hlk
    rcases List.mem_append.mp hlk with h | h
    · exact oneUser_locks_wf _ _ _ _ _ _ _ h
    · exact ih _ h

theorem users_locked_mono (cfg : Config) (now : Nat) (ord : List Nat) (lok : String → Bool)
    (gs : List (List ReqInfo)) (locked : List String) (x : String) (hx : x ∈ locked) :
    x ∈ (processUsers cfg now ord lok gs locked).2 := by
  induction gs generalizing locked with
  | nil => simpa [processUsers] using hx
  | cons g rest ih =>
    simp only [processUsers]
    exact ih _ (oneUser_locked_mono _ _ _ _ _ _ _ hx)

theorem users_locked_new (cfg : Config) (now : Nat) (ord : List Nat) (lok : String → Bool)
    (gs : List (List ReqInfo)) (locked : List String) (x : String)
    (hx : x ∈ (processUsers cfg now ord lok gs locked).2) :
    x ∈ locked ∨
      ∃ lk ∈ (processUsers cfg now ord lok gs locked).1, lk.target = x ∧ lok x = true := by
  induction gs generalizing locked with
  | nil => exact Or.inl (by simpa [processUsers] using hx)
  | cons g rest ih =>
    simp only [processUsers] at hx ⊢
    rcases ih _ hx with h1 | ⟨lk, hlk, ht, hl⟩
    · rcases oneUser_locked_new _ _ _ _ _ _ _ h1 with h0 | ⟨lk, hlk, ht, hl⟩
      · exact Or.inl h0
      · exact Or.inr ⟨lk, List.mem_append.mpr (Or.inl hlk), ht, hl⟩
    · exact Or.inr ⟨lk, List.mem_append.mpr (Or.inr hlk), ht, hl⟩

theorem tick_locks_eq (cfg : Config) (now : Nat) (ord : List Nat) (sok lok : String → Bool)
    (reqs : List ReqInfo) (locked : List String) :
    (tick cfg now ord sok lok reqs locked).locks
        = (processUsers cfg now ord lok
            (groupsFor (processedOf cfg ord sok reqs)) locked).1 := by
  simp [tick]

theorem tick_locked_eq (cfg : Config) (now : Nat) (ord : List Nat) (sok lok : String → Bool)
    (reqs : List ReqInfo) (locked : List String) :
    (tick cfg now ord sok lok reqs locked).locked
        = (processUsers cfg now ord lok
            (groupsFor (processedOf cfg ord sok reqs)) locked).2 := by
  simp [tick]

theorem tick_setStates_eq (cfg : Config) (now : Nat) (ord : List Nat) (sok lok : String → Bool)
    (reqs : List ReqInfo) (locked : List String) :
    (tick cfg now ord sok lok reqs locked).setStates
        = (pendingOf reqs).map (fun r =>
            match adjudicateOne cfg r ord with
            | .approve i s => SetCall.mk i true s
            | .deny i s => SetCall.mk i false s) := by
  simp [tick]

theorem tick_finalReqs_eq (cfg : Config) (now : Nat) (ord : List Nat) (sok lok : String → Bool)
    (reqs : List ReqInfo) (locked : List String) :
    (tick cfg now ord sok lok reqs locked).finalReqs
        = reqs.map (fun r =>
            if r.state == ReqState.pending then
              if sok r.id then
                match adjudicateOne cfg r ord with
                | .approve _ _ => { r with state := ReqState.approved }
                | .deny _ _ => { r with state := ReqState.denied }
              else r
            else r) := by
  simp [tick]

/-! ## Claim theorems -/

/-- C1 counterexample: on a PENDING request violating both enabled policies,
the emitted deny reason is not the resource-limit reason followed by the
role-conflict reason — it is the role-conflict reason alone, and the
resource-limit reason does not occur in it at all (whatever the map
iteration order, the resource text is absent; shown here at order `[0, 1]`). -/
theorem c1_counterexample :
    (cfgDefault.checkResources
        && decide (reqBoth.resources.length > cfgDefault.maxResources)) = true
    ∧ (cfgDefault.checkConflicts
        && hasEnvConflict cfgDefault.conflictPatterns reqBoth.roles) = true
    ∧ adjudicateOne cfgDefault reqBoth [0, 1]
        = Decision.deny "rb"
          (conflictDenyReason [0, 1] (conflictEntries cfgDefault.conflictPatterns reqBoth.roles))
    ∧ strContains
        (conflictDenyReason [0, 1] (conflictEntries cfgDefault.conflictPatterns reqBoth.roles))
        (resourceDenyReason reqBoth.resources.length cfgDefault.maxResources) = false := by
  refine ⟨by decide, by decide, by decide, by decide⟩

/-- C1 (amended): when a PENDING request violates both the enabled
resource-limit policy and the enabled role-conflict policy, the Pending
Adjudicator denies it with the role-conflict reason alone — the conflict
assignment overwrites the resource-limit reason (main.go:280-295). -/
theorem c1_conflict_overwrites (cfg : Config) (req : ReqInfo) (ord : List Nat)
    (hres : (cfg.checkResources && decide (req.resources.length > cfg.maxResources)) = true)
    (hconf : (cfg.checkConflicts && hasEnvConflict cfg.conflictPatterns req.roles) = true) :
    adjudicateOne cfg req ord
      = Decision.deny req.id
          (conflictDenyReason ord (conflictEntries cfg.conflictPatterns req.roles)) := by
  unfold hasEnvConflict at hconf
  simp [adjudicateOne, hres, hconf]

/-- C1 witness: the amended theorem applied to `reqBoth`. -/
theorem c1_conflict_overwrites_witness :
    ((cfgDefault.checkResources
        && decide (reqBoth.resources.length > cfgDefault.maxResources)) = true)
    ∧ ((cfgDefault.checkConflicts
        && hasEnvConflict cfgDefault.conflictPatterns reqBoth.roles) = true)
    ∧ adjudicateOne cfgDefault reqBoth [1, 0]
        = Decision.deny "rb"
          (conflictDenyReason [1, 0] (conflictEntries cfgDefault.conflictPatterns reqBoth.roles)) :=
  ⟨by decide, by decide,
    c1_conflict_overwrites cfgDefault reqBoth [1, 0] (by decide) (by decide)⟩

/-- C2: a PENDING request is never approved when an enabled evaluator reports
a violation, and is approved with the fixed reason when no enabled evaluator
does (main.go:269-319). -/
theorem c2_pending_adjudication (cfg : Config) (req : ReqInfo) (ord : List Nat) :
    (violatesPolicy cfg req = true → (adjudicateOne cfg req ord).isApprove = false)
    ∧ (violatesPolicy cfg req = false →
        adjudicateOne cfg req ord = Decision.approve req.id approveMsg) := by
  have hval : violatesPolicy cfg req
      = ((cfg.checkResources && decide (req.resources.length > cfg.maxResources))
        || (cfg.checkConflicts
            && decide ((conflictEntries cfg.conflictPatterns req.roles).length > 1))) := rfl
  constructor <;> intro h <;> rw [hval] at h
  · rcases Bool.or_eq_true_iff.mp h with h1 | h1 <;>
      simp [adjudicateOne, h1, Decision.isApprove]
  · rcases Bool.or_eq_false_iff.mp h with ⟨h1, h2⟩
    simp [adjudicateOne, h1, h2]

/-- C2 witness: the two directions at `reqBoth` (violating) and `reqClean`
(compliant). -/
theorem c2_pending_adjudication_witness :
    (violatesPolicy cfgDefault reqBoth = true
      ∧ (adjudicateOne cfgDefault reqBoth [0, 1]).isApprove = false)
    ∧ (violatesPolicy cfgDefault reqClean = false
      ∧ adjudicateOne cfgDefault reqClean [0, 1] = Decision.approve "rc" approveMsg) :=
  ⟨⟨by decide, (c2_pending_adjudication cfgDefault reqBoth [0, 1]).1 (by decide)⟩,
    ⟨by decide, (c2_pending_adjudication cfgDefault reqClean [0, 1]).2 (by decide)⟩⟩

/-- C5: the code violates idempotence across ticks. On a snapshot holding one
APPROVED request with an intra-request role conflict, the first tick locks it;
the second tick, run on the unchanged platform state (`finalReqs` is the
input snapshot) and the session set of the first, dispatches no state change
but re-dispatches the `UpsertLock` for `r1` — the intra-request-conflict path
(main.go:366-385) never consults the session set. -/
theorem c5_second_tick_mutates :
    tickOne.finalReqs = [reqIntra]
    ∧ tickOne.locks.map (fun lk => lk.target) = ["r1"]
    ∧ tickTwo.setStates = []
    ∧ tickTwo.locks.map (fun lk => lk.target) = ["r1"] := by
  refine ⟨by decide, by decide, by decide, by decide⟩

/-- C7: the in-process set is consulted in the inter-request and
resource-limit paths (`lockAll` emits nothing for an already-locked id), but
the intra-request-conflict path dispatches its `UpsertLock` even though the
request id is already in the set. -/
theorem c7_intra_path_skips_guard :
    (lockAll 1000 (fun _ => true) "m" [reqIntra] ["r1"]).1 = []
    ∧ (processEnvConflicts cfgDefault 1000 [0, 1] (fun _ => true) [reqIntra] ["r1"]).2.1.map
        (fun lk => lk.target) = ["r1"] := by
  refine ⟨by decide, by decide⟩

/-- C8: every lock a tick dispatches is named `jit-watcher-<request-id>` for
its target request id and expires exactly one hour after creation
(main.go:222-229). -/
theorem c8_lock_contract (cfg : Config) (now : Nat) (ord : List Nat) (sok lok : String → Bool)
    (reqs : List ReqInfo) (locked : List String) (lk : Lock)
    (hlk : lk ∈ (tick cfg now ord sok lok reqs locked).locks) :
    lk.name = "jit-watcher-" ++ lk.target ∧ lk.expires = now + hourSec := by
  rw [tick_locks_eq] at hlk
  exact users_locks_wf _ _ _ _ _ _ _ hlk

/-- C8 witness: the contract read off the lock the `reqIntra` tick creates. -/
theorem c8_lock_contract_witness :
    (⟨"jit-watcher-r1", "r1",
        intraConflictReason [0, 1] (conflictEntries ["prod", "research"] ["prod-a", "research-b"]),
        1000 + hourSec⟩ : Lock).name
      = "jit-watcher-"
        ++ (⟨"jit-watcher-r1", "r1",
            intraConflictReason [0, 1] (conflictEntries ["prod", "research"] ["prod-a", "research-b"]),
            1000 + hourSec⟩ : Lock).target
    ∧ (⟨"jit-watcher-r1", "r1",
        intraConflictReason [0, 1] (conflictEntries ["prod", "research"] ["prod-a", "research-b"]),
        1000 + hourSec⟩ : Lock).expires = 1000 + hourSec :=
  c8_lock_contract cfgDefault 1000 [0, 1] (fun _ => true) (fun _ => true) [reqIntra] [] _
    (by decide)

/-- C9: the session set `lockedRequests` is append-only. A single
`lockAccessRequest` adds the id exactly when its upsert succeeded; a whole
tick never removes an entry; and an id present after a tick was either
present before or is the target of a dispatched upsert that succeeded. -/
theorem c9_locked_monotone :
    (∀ (now : Nat) (i r : String) (locked : List String) (ok : Bool),
      (lockAccessRequest now i r locked ok).2 = if ok then insertId locked i else locked)
    ∧ (∀ (cfg : Config) (now : Nat) (ord : List Nat) (sok lok : String → Bool)
        (reqs : List ReqInfo) (locked : List String) (x : String), x ∈ locked →
        x ∈ (tick cfg now ord sok lok reqs locked).locked)
    ∧ (∀ (cfg : Config) (now : Nat) (ord : List Nat) (sok lok : String → Bool)
        (reqs : List ReqInfo) (locked : List String) (x : String),
        x ∈ (tick cfg now ord sok lok reqs locked).locked →
        x ∈ locked ∨ ∃ lk ∈ (tick cfg now ord sok lok reqs locked).locks,
          lk.target = x ∧ lok x = true) := by
  refine ⟨?_, ?_, ?_⟩
  · intro now i r locked ok
    rw [lockAccessRequest_spec]
    cases ok <;> simp
  · intro cfg now ord sok lok reqs locked x hx
    rw [tick_locked_eq]
    exact users_locked_mono _ _ _ _ _ _ _ hx
  · intro cfg now ord sok lok reqs locked x hx
    rw [tick_locked_eq] at hx
    rcases users_locked_new _ _ _ _ _ _ _ hx with h | ⟨lk, hlk, ht, hl⟩
    · exact Or.inl h
    · exact Or.inr ⟨lk, by rw [tick_locks_eq]; exact hlk, ht, hl⟩

/-- C9 witness: a pre-existing entry survives the `reqIntra` tick, and the
tick's new entry `r1` is accounted for by its dispatched, successful upsert. -/
theorem c9_locked_monotone_witness :
    ("r0" ∈ (["r0"] : List String)
      ∧ "r0" ∈ (tick cfgDefault 1000 [0, 1] (fun _ => true) (fun _ => true)
          [reqIntra] ["r0"]).locked)
    ∧ ("r1" ∈ (tick cfgDefault 1000 [0, 1] (fun _ => true) (fun _ => true)
          [reqIntra] ["r0"]).locked
      ∧ ("r1" ∈ (["r0"] : List String)
        ∨ ∃ lk ∈ (tick cfgDefault 1000 [0, 1] (fun _ => true) (fun _ => true)
            [reqIntra] ["r0"]).locks, lk.target = "r1" ∧ (fun _ => true) "r1" = true)) :=
  ⟨⟨by decide,
      c9_locked_monotone.2.1 cfgDefault 1000 [0, 1] (fun _ => true) (fun _ => true)
        [reqIntra] ["r0"] "r0" (by decide)⟩,
    ⟨by decide,
      c9_locked_monotone.2.2 cfgDefault 1000 [0, 1] (fun _ => true) (fun _ => true)
        [reqIntra] ["r0"] "r1" (by decide)⟩⟩

/-- C10: a `--conflict-patterns` value whose comma-separated entries are all
blank parses to the empty list, so the default patterns are applied and the
at-least-two-patterns validation passes. -/
theorem c10_blank_patterns_fall_back (v : String)
    (h : ∀ part ∈ splitOnComma v, trimSpace part = "") :
    stringSliceFlagSet [] v = []
    ∧ resolveConflictPatterns (stringSliceFlagSet [] v) = ["prod", "research"]
    ∧ validateConflictPatterns true
        (resolveConflictPatterns (stringSliceFlagSet [] v)) = true := by
  have h0 : stringSliceFlagSet [] v = [] := by
    have he : stringSliceFlagSet [] v
        = ((splitOnComma v).map trimSpace).filter (fun s => !(s == "")) := by
      simp [stringSliceFlagSet]
    rw [he]
    apply List.filter_eq_nil_iff.mpr
    intro a ha
    obtain ⟨b, hb, rfl⟩ := List.mem_map.mp ha
    simp [h b hb]
  refine ⟨h0, ?_, ?_⟩ <;> rw [h0] <;> decide

/-- C10 witness: the theorem at the all-blank value `" , ,\t"`. -/
theorem c10_blank_patterns_fall_back_witness :
    (∀ part ∈ splitOnComma " , ,\t", trimSpace part = "")
    ∧ stringSliceFlagSet [] " , ,\t" = []
    ∧ resolveConflictPatterns (stringSliceFlagSet [] " , ,\t") = ["prod", "research"]
    ∧ validateConflictPatterns true
        (resolveConflictPatterns (stringSliceFlagSet [] " , ,\t")) = true :=
  ⟨by decide,
    c10_blank_patterns_fall_back " , ,\t" (by decide)⟩

/-- C6 counterexample: two admissible map-iteration orders over the same
snapshot and configuration give different pending decisions — the deny reason
string enumerates the conflict map in iteration order, which Go randomizes,
so reasons are not deterministic and not pinned to the configured pattern
order. -/
theorem c6_counterexample :
    ([1, 0] : List Nat).Perm (List.range 2)
    ∧ (conflictEntries cfgDefault.conflictPatterns pendConf.roles).length = 2
    ∧ (tick cfgDefault 1000 [0, 1] (fun _ => true) (fun _ => true) [pendConf] []).setStates
      ≠ (tick cfgDefault 1000 [1, 0] (fun _ => true) (fun _ => true) [pendConf] []).setStates := by
  refine ⟨by decide, by decide, by decide⟩

theorem sumCounts_cons (a : ReqInfo) (l : List ReqInfo) :
    sumCounts (a :: l) = a.resources.length + sumCounts l := by
  simp [sumCounts]

/-- The greedy loop keeps a set within quota, and every queued request would
overflow the kept sum if it were kept instead. -/
theorem greedySplit_spec (quota : Nat) (l : List ReqInfo) :
    sumCounts (greedySplit quota l).1 ≤ quota
    ∧ ∀ r ∈ (greedySplit quota l).2,
        quota < sumCounts (greedySplit quota l).1 + r.resources.length := by
  induction l generalizing quota with
  | nil => simp [greedySplit, sumCounts]
  | cons req rest ih =>
    by_cases hc : req.resources.length ≤ quota
    · have heq : greedySplit quota (req :: rest)
          = (req :: (greedySplit (quota - req.resources.length) rest).1,
            (greedySplit (quota - req.resources.length) rest).2) := by
        simp [greedySplit, hc]
      rw [heq]
      obtain ⟨h1, h2⟩ := ih (quota - req.resources.length)
      refine ⟨by rw [sumCounts_cons]; omega, ?_⟩
      intro r hr
      have h3 := h2 r hr
      rw [sumCounts_cons]
      omega
    · have heq : greedySplit quota (req :: rest)
          = ((greedySplit quota rest).1, req :: (greedySplit quota rest).2) := by
        simp [greedySplit, hc]
      rw [heq]
      obtain ⟨h1, h2⟩ := ih quota
      refine ⟨h1, ?_⟩
      intro r hr
      rcases List.mem_cons.mp hr with rfl | hr'
      · omega
      · exact h2 r hr'

/-- C3: with the resource check enabled, the pass queues upserts only for the
requests the greedy split marks for locking; the requests it keeps unlocked
sum to at most `maxResources`; and keeping any queued request instead would
push the unlocked sum past `maxResources`. -/
theorem c3_resource_minimality (cfg : Config) (now : Nat) (lok : String → Bool)
    (userRequests : List ReqInfo) (locked : List String)
    (hcr : cfg.checkResources = true) :
    (∀ lk ∈ (processResourceLimits cfg now lok userRequests locked).1,
      ∃ r ∈ (resourceSplit cfg.maxResources userRequests).2, lk.target = r.id)
    ∧ sumCounts (resourceSplit cfg.maxResources userRequests).1 ≤ cfg.maxResources
    ∧ ∀ r ∈ (resourceSplit cfg.maxResources userRequests).2,
        cfg.maxResources
          < sumCounts (resourceSplit cfg.maxResources userRequests).1 + r.resources.length := by
  refine ⟨?_, ?_⟩
  · intro lk hlk
    by_cases hemp : userRequests.isEmpty = true
    · simp [processResourceLimits, hcr, hemp] at hlk
    · simp only [Bool.not_eq_true] at hemp
      simp only [processResourceLimits, hcr, hemp, Bool.not_true, Bool.false_eq_true,
        ite_false] at hlk
      obtain ⟨r, hr, heq⟩ := lockAll_locks_spec _ _ _ _ _ _ hlk
      exact ⟨r, hr, by rw [heq]⟩
  · by_cases ht : sumCounts userRequests ≤ cfg.maxResources
    · constructor
      · simp [resourceSplit, ht]
      · intro r hr
        simp [resourceSplit, ht] at hr
    · have heq : resourceSplit cfg.maxResources userRequests
          = greedySplit cfg.maxResources userRequests := by
        simp [resourceSplit, ht]
      rw [heq]
      exact greedySplit_spec cfg.maxResources userRequests

/-- C3 witness: the pass on two two-resource requests under the default
limit of three keeps the first and queues the second, whose resources would
overflow the kept sum. -/
theorem c3_resource_minimality_witness :
    cfgDefault.checkResources = true
    ∧ ((∀ lk ∈ (processResourceLimits cfgDefault 1000 (fun _ => true) [evA, evB] []).1,
        ∃ r ∈ (resourceSplit cfgDefault.maxResources [evA, evB]).2, lk.target = r.id)
      ∧ sumCounts (resourceSplit cfgDefault.maxResources [evA, evB]).1 ≤ cfgDefault.maxResources
      ∧ ∀ r ∈ (resourceSplit cfgDefault.maxResources [evA, evB]).2,
          cfgDefault.maxResources
            < sumCounts (resourceSplit cfgDefault.maxResources [evA, evB]).1
              + r.resources.length) :=
  ⟨by decide,
    c3_resource_minimality cfgDefault 1000 (fun _ => true) [evA, evB] [] (by decide)⟩

/-! ## Insertion sort: permutation, and a strict maximum sorts to the back -/

theorem insR_mem (lt : α → α → Bool) (x y : α) (l : List α) :
    y ∈ insR lt x l ↔ y = x ∨ y ∈ l := by
  induction l with
  | nil => simp [insR]
  | cons z zs ih =>
    simp only [insR]
    split
    · simp [List.mem_cons]
    · simp only [List.mem_cons, ih]
      tauto

theorem insR_perm (lt : α → α → Bool) (x : α) (l : List α) :
    (insR lt x l).Perm (x :: l) := by
  induction l with
  | nil => simp [insR]
  | cons z zs ih =>
    simp only [insR]
    split
    · exact List.Perm.refl _
    · exact (List.Perm.cons z ih).trans (List.Perm.swap x z zs)

theorem foldl_ins_perm (lt : α → α → Bool) (l : List α) :
    ∀ acc : List α, (l.foldl (fun a x => insR lt x a) acc).Perm (acc ++ l) := by
  induction l with
  | nil => intro acc; simp
  | cons x xs ih =>
    intro acc
    simp only [List.foldl_cons]
    refine (ih (insR lt x acc)).trans ?_
    refine ((insR_perm lt x acc).append_right xs).trans ?_
    exact List.perm_middle.symm

theorem isortBy_perm (lt : α → α → Bool) (l : List α) :
    (isortBy lt l).Perm l := by
  simpa [isortBy] using foldl_ins_perm lt l []

theorem insR_keeps_last (lt : α → α → Bool) (y m : α) (l₁ : List α)
    (hy : lt y m = true) (hym : y ≠ m) (hm : m ∉ l₁) :
    ∃ l₂, insR lt y (l₁ ++ [m]) = l₂ ++ [m] ∧ m ∉ l₂ := by
  induction l₁ with
  | nil =>
    refine ⟨[y], ?_, by simp [Ne.symm hym]⟩
    simp [insR, hy]
  | cons z zs ih =>
    have hmz : m ∉ zs := fun h => hm (List.mem_cons_of_mem _ h)
    have hmz2 : m ≠ z := fun h => hm (h ▸ List.mem_cons_self ..)
    by_cases hlt : lt y z = true
    · refine ⟨y :: z :: zs, ?_, ?_⟩
      · simp [insR, hlt]
      · simp only [List.mem_cons, not_or]
        exact ⟨Ne.symm hym, hmz2, hmz⟩
    · obtain ⟨l₂, he, hn⟩ := ih hmz
      refine ⟨z :: l₂, ?_, ?_⟩
      · simp [insR, hlt, he]
      · simp only [List.mem_cons, not_or]
        exact ⟨hmz2, hn⟩

theorem insR_max_append (lt : α → α → Bool) (m : α) (l : List α)
    (h : ∀ z ∈ l, lt m z = false) :
    insR lt m l = l ++ [m] := by
  induction l with
  | nil => simp [insR]
  | cons z zs ih =>
    have hz := h z (List.mem_cons_self ..)
    simp only [insR, hz, Bool.false_eq_true, if_false, List.cons_append]
    rw [ih (fun z' hz' => h z' (List.mem_cons_of_mem _ hz'))]

theorem foldl_ins_after (lt : α → α → Bool) (m : α) (rest : List α) :
    ∀ acc₁ : List α, (∀ y ∈ rest, y ≠ m ∧ lt y m = true) → m ∉ acc₁ →
      ∃ s, rest.foldl (fun a x => insR lt x a) (acc₁ ++ [m]) = s ++ [m] ∧ m ∉ s := by
  induction rest with
  | nil => exact fun acc₁ _ hm => ⟨acc₁, rfl, hm⟩
  | cons y ys ih =>
    intro acc₁ hrest hm
    obtain ⟨hne, hlt⟩ := hrest y (List.mem_cons_self ..)
    obtain ⟨l₂, he, hn⟩ := insR_keeps_last lt y m acc₁ hlt hne hm
    simp only [List.foldl_cons, he]
    exact ih l₂ (fun y' hy' => hrest y' (List.mem_cons_of_mem _ hy')) hn

theorem foldl_ins_max_last (lt : α → α → Bool) [DecidableEq α] (m : α) (rest : List α) :
    ∀ acc : List α,
      (∀ y ∈ rest, y = m ∨ (y ≠ m ∧ lt y m = true ∧ lt m y = false)) →
      rest.count m = 1 →
      (∀ z ∈ acc, z ≠ m ∧ lt m z = false) →
      ∃ s, rest.foldl (fun a x => insR lt x a) acc = s ++ [m] ∧ m ∉ s := by
  induction rest with
  | nil => intro acc _ hcnt _; simp at hcnt
  | cons y ys ih =>
    intro acc hrest hcnt hacc
    by_cases hym : y = m
    · subst hym
      have hys0 : y ∉ ys := by
        rw [List.count_cons_self] at hcnt
        exact List.count_eq_zero.mp (by omega)
      have hyslt : ∀ y' ∈ ys, y' ≠ y ∧ lt y' y = true := by
        intro y' hy'
        rcases hrest y' (List.mem_cons_of_mem _ hy') with rfl | ⟨hne, hlt, _⟩
        · exact absurd hy' hys0
        · exact ⟨hne, hlt⟩
      have hmacc : y ∉ acc := fun hmem => (hacc y hmem).1 rfl
      have he : insR lt y acc = acc ++ [y] :=
        insR_max_append lt y acc (fun z hz => (hacc z hz).2)
      simp only [List.foldl_cons, he]
      exact foldl_ins_after lt y ys acc hyslt hmacc
    · obtain ⟨hne, hlt, hfl⟩ := (hrest y (List.mem_cons_self ..)).resolve_left hym
      have hcnt' : ys.count m = 1 := by
        rwa [List.count_cons_of_ne (fun h => hym h.symm)] at hcnt
      have hacc' : ∀ z ∈ insR lt y acc, z ≠ m ∧ lt m z = false := by
        intro z hz
        rcases (insR_mem lt y z acc).mp hz with rfl | hz'
        · exact ⟨hne, hfl⟩
        · exact hacc z hz'
      simp only [List.foldl_cons]
      exact ih (insR lt y acc) (fun y' hy' => hrest y' (List.mem_cons_of_mem _ hy'))
        hcnt' hacc'

/-- If `m` occurs exactly once and strictly dominates every other element
under `lt`, insertion sort puts `m` last. -/
theorem isortBy_strict_max_last (lt : α → α → Bool) [DecidableEq α] (l : List α) (m : α)
    (hcnt : l.count m = 1)
    (hmax : ∀ y ∈ l, y ≠ m → lt y m = true ∧ lt m y = false) :
    ∃ s, isortBy lt l = s ++ [m] ∧ m ∉ s := by
  have h := foldl_ins_max_last lt m l []
    (by
      intro y hy
      by_cases hy' : y = m
      · exact Or.inl hy'
      · exact Or.inr ⟨hy', (hmax y hy hy').1, (hmax y hy hy').2⟩)
    hcnt
    (by intro z hz; cases hz)
  simpa [isortBy] using h

/-- A request with an intra-request conflict matches at least one configured
pattern. -/
theorem hasEnvConflict_matches (pats roles : List String)
    (h : hasEnvConflict pats roles = true) :
    pats.any (fun p => hasRolePattern roles p) = true := by
  unfold hasEnvConflict at h
  have hne : conflictEntries pats roles ≠ [] := by
    intro h0
    rw [h0] at h
    simp at h
  obtain ⟨e, he⟩ := List.exists_mem_of_ne_nil _ hne
  unfold conflictEntries at he
  obtain ⟨he1, he2⟩ := List.mem_filter.mp he
  obtain ⟨p, hp, rfl⟩ := List.mem_map.mp he1
  refine List.any_eq_true.mpr ⟨p, hp, ?_⟩
  have hne2 : rolesMatching p roles ≠ [] := by simpa using he2
  obtain ⟨r0, hr0⟩ := List.exists_mem_of_ne_nil _ hne2
  obtain ⟨hr0r, hr0m⟩ := List.mem_filter.mp hr0
  exact List.any_eq_true.mpr ⟨r0, hr0r, hr0m⟩

/-- The main branch of `pass1b`, spelled out. -/
theorem pass1b_main_eq (cfg : Config) (now : Nat) (lok : String → Bool)
    (toProcess : List ReqInfo) (locked : List String)
    (h1 : ¬toProcess.length ≤ 1)
    (h2 : hasEnvConflict cfg.conflictPatterns
      ((toProcess.map (fun r => r.roles)).flatten) = true)
    (h3 : (participantsOf cfg toProcess).length > 1) :
    pass1b cfg now lok toProcess locked
      = (toProcess.filter (fun r =>
            !((lockAll now lok (interConflictReason cfg)
              (isortBy byCreatedAsc (participantsOf cfg toProcess)).dropLast locked).2.contains
                r.id)),
        (lockAll now lok (interConflictReason cfg)
          (isortBy byCreatedAsc (participantsOf cfg toProcess)).dropLast locked).1,
        (lockAll now lok (interConflictReason cfg)
          (isortBy byCreatedAsc (participantsOf cfg toProcess)).dropLast locked).2) := by
  simp [pass1b, h1, h2, h3]

/-- C4 counterexample: with equal creation times the code breaks no tie by
id. Here `tieB` (larger id `b`, hence the claim's "newest participant") sits
first in the snapshot, the stable sorts keep the tie order, and Pass 1 locks
`tieB` — the participant the claim says is never locked. -/
theorem c4_counterexample :
    tieB.created = tieA.created
    ∧ tieA.id.data < tieB.id.data
    ∧ tieB ∈ participantsOf cfgDefault [tieB, tieA]
    ∧ (tick cfgDefault 1000 [0, 1] (fun _ => true) (fun _ => true) [tieB, tieA] []).locks.map
        (fun lk => lk.target) = ["b"] := by
  refine ⟨by decide, by decide, by decide, by decide⟩

/-- C4 (amended): restrict to a newest participant by strict `createdAt`
comparison (the code never consults ids, so ties are resolved by input order,
not by id). If `m` is the unique participant with maximal creation time, the
inter-request pass never dispatches a lock for `m`, dispatches locks only for
participants, and ends with every other participant's id in the session set;
and the intra-request pass locks only requests matching some pattern. -/
theorem c4_lock_all_but_newest (cfg : Config) (now : Nat) (ord : List Nat)
    (toProcess userRequests : List ReqInfo) (locked lockedA : List String) (m : ReqInfo)
    (hm : m ∈ participantsOf cfg toProcess)
    (hcnt : (participantsOf cfg toProcess).count m = 1)
    (hmax : ∀ y ∈ participantsOf cfg toProcess, y ≠ m → y.created < m.created)
    (hid : ∀ y ∈ participantsOf cfg toProcess, y.id = m.id → y = m) :
    (∀ lk ∈ (pass1b cfg now (fun _ => true) toProcess locked).2.1,
      lk.target ≠ m.id ∧ ∃ r ∈ participantsOf cfg toProcess, lk.target = r.id)
    ∧ (1 < toProcess.length →
        hasEnvConflict cfg.conflictPatterns
          ((toProcess.map (fun r => r.roles)).flatten) = true →
        ∀ y ∈ participantsOf cfg toProcess, y ≠ m →
          y.id ∈ (pass1b cfg now (fun _ => true) toProcess locked).2.2)
    ∧ (∀ lk ∈ (pass1a cfg now ord (fun _ => true) userRequests lockedA).2.1,
        ∃ r ∈ userRequests, lk.target = r.id
          ∧ cfg.conflictPatterns.any (fun p => hasRolePattern r.roles p) = true) := by
  obtain ⟨s, hs, hms⟩ := isortBy_strict_max_last byCreatedAsc
    (participantsOf cfg toProcess) m hcnt
    (by
      intro y hy hne
      have hlt := hmax y hy hne
      constructor
      · simp [byCreatedAsc, hlt]
      · simp only [byCreatedAsc, decide_eq_false_iff_not]
        omega)
  have hdl : (isortBy byCreatedAsc (participantsOf cfg toProcess)).dropLast = s := by
    rw [hs]
    exact List.dropLast_concat ..
  have hperm : (s ++ [m]).Perm (participantsOf cfg toProcess) := by
    rw [← hs]
    exact isortBy_perm _ _
  refine ⟨?_, ?_, ?_⟩
  · intro lk hlk
    by_cases h1 : toProcess.length ≤ 1
    · simp [pass1b, h1] at hlk
    · by_cases h2 : hasEnvConflict cfg.conflictPatterns
          ((toProcess.map (fun r => r.roles)).flatten) = true
      · by_cases h3 : (participantsOf cfg toProcess).length > 1
        · rw [pass1b_main_eq cfg now (fun _ => true) toProcess locked h1 h2 h3] at hlk
          obtain ⟨r, hr, heq⟩ := lockAll_locks_spec _ _ _ _ _ _ hlk
          rw [hdl] at hr
          have hrp : r ∈ participantsOf cfg toProcess :=
            hperm.mem_iff.mp (List.mem_append.mpr (Or.inl hr))
          have hrm : r ≠ m := fun h => hms (h ▸ hr)
          constructor
          · rw [heq]
            intro hcontra
            exact hrm (hid r hrp hcontra)
          · exact ⟨r, hrp, by rw [heq]⟩
        · simp [pass1b, h1, h2, h3] at hlk
      · simp only [Bool.not_eq_true] at h2
        simp [pass1b, h1, h2] at hlk
  · intro hlen hconf y hy hyne
    have hye : y ∈ (participantsOf cfg toProcess).erase m :=
      (List.mem_erase_of_ne hyne).mpr hy
    have h3 : 1 < (participantsOf cfg toProcess).length := by
      have h0 : 0 < ((participantsOf cfg toProcess).erase m).length :=
        List.length_pos.mpr (List.ne_nil_of_mem hye)
      rw [List.length_erase_of_mem hm] at h0
      omega
    rw [pass1b_main_eq cfg now (fun _ => true) toProcess locked (by omega) hconf h3]
    have hys : y ∈ s := by
      rcases List.mem_append.mp (hperm.mem_iff.mpr hy) with h | h
      · exact h
      · exact absurd (List.mem_singleton.mp h) hyne
    rw [hdl]
    exact lockAll_locked_of_mem _ _ _ _ _ y hys rfl
  · intro lk hlk
    obtain ⟨r, hr, hconf', heq⟩ := pass1a_locks_spec _ _ _ _ _ _ _ hlk
    exact ⟨r, hr, by rw [heq], hasEnvConflict_matches _ _ hconf'⟩

/-- C4 witness: the amended theorem on the specification's scenario 4 — the
older `r4` is locked, the newest `r5` never is. -/
theorem c4_lock_all_but_newest_witness :
    (dNew ∈ participantsOf cfgDefault [dNew, dOld]
      ∧ (participantsOf cfgDefault [dNew, dOld]).count dNew = 1
      ∧ (∀ y ∈ participantsOf cfgDefault [dNew, dOld], y ≠ dNew → y.created < dNew.created)
      ∧ (∀ y ∈ participantsOf cfgDefault [dNew, dOld], y.id = dNew.id → y = dNew))
    ∧ ((∀ lk ∈ (pass1b cfgDefault 1000 (fun _ => true) [dNew, dOld] []).2.1,
        lk.target ≠ dNew.id ∧ ∃ r ∈ participantsOf cfgDefault [dNew, dOld], lk.target = r.id)
      ∧ (1 < ([dNew, dOld] : List ReqInfo).length →
          hasEnvConflict cfgDefault.conflictPatterns
            ((([dNew, dOld] : List ReqInfo).map (fun r => r.roles)).flatten) = true →
          ∀ y ∈ participantsOf cfgDefault [dNew, dOld], y ≠ dNew →
            y.id ∈ (pass1b cfgDefault 1000 (fun _ => true) [dNew, dOld] []).2.2)
      ∧ (∀ lk ∈ (pass1a cfgDefault 1000 [0, 1] (fun _ => true) [reqIntra] []).2.1,
          ∃ r ∈ ([reqIntra] : List ReqInfo), lk.target = r.id
            ∧ cfgDefault.conflictPatterns.any (fun p => hasRolePattern r.roles p) = true)) :=
  ⟨⟨by decide, by decide, by decide, by decide⟩,
    c4_lock_all_but_newest cfgDefault 1000 [0, 1] [dNew, dOld] [reqIntra] [] [] dNew
      (by decide) (by decide) (by decide) (by decide)⟩

/-! ## Map-iteration order only affects reason strings -/

theorem adjudicateOne_eq (cfg : Config) (req : ReqInfo) (ord : List Nat) :
    adjudicateOne cfg req ord
      = if (!(cfg.checkResources && decide (req.resources.length > cfg.maxResources))
            && !(cfg.checkConflicts
              && decide ((conflictEntries cfg.conflictPatterns req.roles).length > 1)))
        then Decision.approve req.id approveMsg
        else Decision.deny req.id
          (if (cfg.checkConflicts
              && decide ((conflictEntries cfg.conflictPatterns req.roles).length > 1))
           then conflictDenyReason ord (conflictEntries cfg.conflictPatterns req.roles)
           else resourceDenyReason req.resources.length cfg.maxResources) := rfl

theorem adjudicateOne_strip (cfg : Config) (req : ReqInfo) (ord1 ord2 : List Nat) :
    (adjudicateOne cfg req ord1).isApprove = (adjudicateOne cfg req ord2).isApprove
    ∧ (adjudicateOne cfg req ord1).rid = (adjudicateOne cfg req ord2).rid := by
  rw [adjudicateOne_eq, adjudicateOne_eq]
  split_ifs <;> simp [Decision.isApprove, Decision.rid]

theorem map_congr_mem (f g : α → β) (l : List α) (h : ∀ a ∈ l, f a = g a) :
    l.map f = l.map g := by
  induction l with
  | nil => rfl
  | cons x xs ih =>
    simp only [List.map_cons]
    rw [h x (List.mem_cons_self ..), ih (fun a ha => h a (List.mem_cons_of_mem _ ha))]

theorem filterMap_congr_mem (f g : α → Option β) (l : List α)
    (h : ∀ a ∈ l, f a = g a) : l.filterMap f = l.filterMap g := by
  induction l with
  | nil => rfl
  | cons x xs ih =>
    simp only [List.filterMap_cons]
    rw [h x (List.mem_cons_self ..), ih (fun a ha => h a (List.mem_cons_of_mem _ ha))]

theorem pass1a_ord_inv (cfg : Config) (now : Nat) (lok : String → Bool)
    (ord1 ord2 : List Nat) (l : List ReqInfo) :
    ∀ locked : List String,
      (pass1a cfg now ord1 lok l locked).1 = (pass1a cfg now ord2 lok l locked).1
      ∧ (pass1a cfg now ord1 lok l locked).2.2 = (pass1a cfg now ord2 lok l locked).2.2
      ∧ (pass1a cfg now ord1 lok l locked).2.1.map stripLock
        = (pass1a cfg now ord2 lok l locked).2.1.map stripLock := by
  induction l with
  | nil => intro locked; simp [pass1a]
  | cons req rest ih =>
    intro locked
    by_cases h : hasEnvConflict cfg.conflictPatterns req.roles = true
    · rw [pass1a_cons_conflict cfg now ord1 lok req rest locked h,
        pass1a_cons_conflict cfg now ord2 lok req rest locked h]
      obtain ⟨h1, h2, h3⟩ := ih (if lok req.id then insertId locked req.id else locked)
      exact ⟨h1, h2, by simp [stripLock, h3]⟩
    · rw [pass1a_cons_clean cfg now ord1 lok req rest locked (by simpa using h),
        pass1a_cons_clean cfg now ord2 lok req rest locked (by simpa using h)]
      obtain ⟨h1, h2, h3⟩ := ih locked
      exact ⟨by rw [h1], h2, h3⟩

theorem env_ord_inv (cfg : Config) (now : Nat) (lok : String → Bool)
    (ord1 ord2 : List Nat) (l : List ReqInfo) (locked : List String) :
    (processEnvConflicts cfg now ord1 lok l locked).1
      = (processEnvConflicts cfg now ord2 lok l locked).1
    ∧ (processEnvConflicts cfg now ord1 lok l locked).2.2
      = (processEnvConflicts cfg now ord2 lok l locked).2.2
    ∧ (processEnvConflicts cfg now ord1 lok l locked).2.1.map stripLock
      = (processEnvConflicts cfg now ord2 lok l locked).2.1.map stripLock := by
  by_cases hc : cfg.checkConflicts = true
  · by_cases he : l.isEmpty = true
    · simp [processEnvConflicts, hc, he]
    · simp only [Bool.not_eq_true] at he
      simp only [processEnvConflicts, hc, he, Bool.not_true, Bool.false_eq_true, ite_false]
      obtain ⟨h1, h2, h3⟩ := pass1a_ord_inv cfg now lok ord1 ord2 l locked
      rw [h1, h2]
      refine ⟨rfl, rfl, ?_⟩
      simp [List.map_append, h3]
  · simp only [Bool.not_eq_true] at hc
    simp [processEnvConflicts, hc]

theorem oneUser_ord_inv (cfg : Config) (now : Nat) (lok : String → Bool)
    (ord1 ord2 : List Nat) (g : List ReqInfo) (locked : List String) :
    (processOneUser cfg now ord1 lok g locked).2
      = (processOneUser cfg now ord2 lok g locked).2
    ∧ (processOneUser cfg now ord1 lok g locked).1.map stripLock
      = (processOneUser cfg now ord2 lok g locked).1.map stripLock := by
  obtain ⟨h1, h2, h3⟩ := env_ord_inv cfg now lok ord1 ord2 g locked
  simp only [processOneUser]
  rw [h1, h2]
  refine ⟨rfl, ?_⟩
  simp [List.map_append, h3]

theorem users_ord_inv (cfg : Config) (now : Nat) (lok : String → Bool)
    (ord1 ord2 : List Nat) (gs : List (List ReqInfo)) :
    ∀ locked : List String,
      (processUsers cfg now ord1 lok gs locked).2
        = (processUsers cfg now ord2 lok gs locked).2
      ∧ (processUsers cfg now ord1 lok gs locked).1.map stripLock
        = (processUsers cfg now ord2 lok gs locked).1.map stripLock := by
  induction gs with
  | nil => intro locked; simp [processUsers]
  | cons g rest ih =>
    intro locked
    obtain ⟨h1, h2⟩ := oneUser_ord_inv cfg now lok ord1 ord2 g locked
    simp only [processUsers]
    rw [h1]
    obtain ⟨h3, h4⟩ := ih (processOneUser cfg now ord2 lok g locked).2
    exact ⟨h3, by simp [List.map_append, h2, h4]⟩

theorem processedOf_ord_inv (cfg : Config) (sok : String → Bool) (reqs : List ReqInfo)
    (ord1 ord2 : List Nat) :
    processedOf cfg ord1 sok reqs = processedOf cfg ord2 sok reqs := by
  unfold processedOf
  congr 1
  apply filterMap_congr_mem
  intro r _
  obtain ⟨ha, _⟩ := adjudicateOne_strip cfg r ord1 ord2
  cases h1 : adjudicateOne cfg r ord1 <;> cases h2 : adjudicateOne cfg r ord2 <;>
    rw [h1, h2] at ha <;> simp_all [Decision.isApprove]

theorem tick_setStates_strip (cfg : Config) (now : Nat) (sok lok : String → Bool)
    (reqs : List ReqInfo) (locked : List String) (ord1 ord2 : List Nat) :
    (tick cfg now ord1 sok lok reqs locked).setStates.map stripCall
      = (tick cfg now ord2 sok lok reqs locked).setStates.map stripCall := by
  rw [tick_setStates_eq, tick_setStates_eq, List.map_map, List.map_map]
  apply map_congr_mem
  intro r _
  obtain ⟨ha, hr⟩ := adjudicateOne_strip cfg r ord1 ord2
  cases h1 : adjudicateOne cfg r ord1 <;> cases h2 : adjudicateOne cfg r ord2 <;>
    rw [h1, h2] at ha hr <;>
    simp_all [Decision.isApprove, Decision.rid, stripCall, Function.comp]

theorem tick_finalReqs_inv (cfg : Config) (now : Nat) (sok lok : String → Bool)
    (reqs : List ReqInfo) (locked : List String) (ord1 ord2 : List Nat) :
    (tick cfg now ord1 sok lok reqs locked).finalReqs
      = (tick cfg now ord2 sok lok reqs locked).finalReqs := by
  rw [tick_finalReqs_eq, tick_finalReqs_eq]
  apply map_congr_mem
  intro r _
  by_cases hp : (r.state == ReqState.pending) = true
  · by_cases hs : sok r.id = true
    · simp only [hp, hs, if_true]
      obtain ⟨ha, _⟩ := adjudicateOne_strip cfg r ord1 ord2
      cases h1 : adjudicateOne cfg r ord1 <;> cases h2 : adjudicateOne cfg r ord2 <;>
        rw [h1, h2] at ha <;> simp_all [Decision.isApprove]
    · simp [hp, hs]
  · simp [hp]

/-- C6 (amended): the adjudication verdicts (request id and approve/deny),
the lock upserts' names, targets and expiries, the final session set and the
final platform state are identical for any two map-iteration orders over the
same snapshot and configuration; only reason and lock message strings follow
the randomized iteration order. -/
theorem c6_deterministic_up_to_reasons (cfg : Config) (now : Nat) (sok lok : String → Bool)
    (reqs : List ReqInfo) (locked : List String) (ord1 ord2 : List Nat) :
    (tick cfg now ord1 sok lok reqs locked).setStates.map stripCall
      = (tick cfg now ord2 sok lok reqs locked).setStates.map stripCall
    ∧ (tick cfg now ord1 sok lok reqs locked).locks.map stripLock
      = (tick cfg now ord2 sok lok reqs locked).locks.map stripLock
    ∧ (tick cfg now ord1 sok lok reqs locked).locked
      = (tick cfg now ord2 sok lok reqs locked).locked
    ∧ (tick cfg now ord1 sok lok reqs locked).finalReqs
      = (tick cfg now ord2 sok lok reqs locked).finalReqs := by
  refine ⟨tick_setStates_strip cfg now sok lok reqs locked ord1 ord2, ?_, ?_,
    tick_finalReqs_inv cfg now sok lok reqs locked ord1 ord2⟩
  · rw [tick_locks_eq, tick_locks_eq, processedOf_ord_inv cfg sok reqs ord1 ord2]
    exact (users_ord_inv cfg now lok ord1 ord2 _ locked).2
  · rw [tick_locked_eq, tick_locked_eq, processedOf_ord_inv cfg sok reqs ord1 ord2]
    exact (users_ord_inv cfg now lok ord1 ord2 _ locked).1
